import Mathlib

/-!
Verification of the trading position / PnL engine.

The definitions below are a shallow embedding of the Python source:
`app/core/engine.py` (PositionEngine), `app/core/pnl.py` (PNLCalculator),
`app/api/reconciliation.py` and `app/api/positions.py` (floating-PnL and
reconciliation wiring), and `app/config.py` (contract multipliers).
Machine floats are modelled as exact rationals; Python dicts keyed by strings
are modelled as insertion-ordered association lists.
-/

namespace TradingBRT

/-- Trade status, from `app/models/trade.py` (`TradeStatus`). -/
inductive TradeStatus where
  | active
  | reversed
  deriving DecidableEq, Repr

/-- Trade kind, from `app/models/trade.py` (`TradeType`). -/
inductive TradeType where
  | regular
  | adjustment
  deriving DecidableEq, Repr

/-- One ledger entry, from `app/models/trade.py` (`Trade`). Timestamps are
modelled as integers (ISO timestamps compare like their numeric order). -/
structure Trade where
  date : Int
  trader : String
  product : String
  contract : String
  quantity : ℚ
  price : ℚ
  status : TradeStatus
  type : TradeType
  deriving DecidableEq, Repr

/-- Python dict `.get`: first binding of the key in an association list. -/
def dictGet {α : Type} (k : String) : List (String × α) → Option α
  | [] => none
  | (k₂, v) :: rest => if k = k₂ then some v else dictGet k rest

/-- Python dict assignment on a key already present: replace the first binding,
keeping insertion order. -/
def dictSet {α : Type} (k : String) (v : α) : List (String × α) → List (String × α)
  | [] => []
  | (k₂, v₂) :: rest => if k = k₂ then (k₂, v) :: rest else (k₂, v₂) :: dictSet k v rest

/-- Per-product base contract multipliers, from `app/config.py`
(`CONTRACT_MULTIPLIERS`). -/
def CONTRACT_MULTIPLIERS : List (String × ℚ) :=
  [("Brent", 1000), ("Henry Hub", 10000), ("JKM", 10000), ("TTF", 10000)]

/-- Fee configuration: the two optional buckets of the settings `fees` dict. -/
structure FeesConfig where
  brentPerBbl : Option ℚ
  hhPerMMBtu : Option ℚ
  deriving DecidableEq, Repr

/-- Engine configuration: the `fees` dict plus the `ttfMultiplier` knob. -/
structure EngineConfig where
  fees : FeesConfig
  ttfMultiplier : ℚ
  deriving DecidableEq, Repr

/-- Source `PositionEngine._get_contract_multiplier`: base multiplier with default
1000 for unknown products; the TTF product is scaled by `ttfMultiplier`. -/
def getContractMultiplier (product : String) (ttfMultiplier : ℚ) : ℚ :=
  let baseMult := (dictGet product CONTRACT_MULTIPLIERS).getD 1000
  if product = "TTF" then baseMult * ttfMultiplier else baseMult

/-- Source `PositionEngine._get_fee_rate`: Brent uses `brentPerBbl`, every other
product uses `hhPerMMBtu`; a missing bucket defaults to 0. -/
def getFeeRate (product : String) (fees : FeesConfig) : ℚ :=
  if product = "Brent" then fees.brentPerBbl.getD 0 else fees.hhPerMMBtu.getD 0

/-- Engine-internal running position state (the `temp_positions[key]` dict). -/
structure PosData where
  trader : String
  product : String
  contract : String
  quantity : ℚ
  total_value : ℚ
  last_update : Int
  deriving DecidableEq, Repr

/-- One realized-closure history record (the dict appended to `history`). -/
structure HistoryEntry where
  date : Int
  trader : String
  product : String
  contract : String
  closed_quantity : ℚ
  open_price : ℚ
  close_price : ℚ
  realized_pl : ℚ
  multiplier : ℚ
  fee : ℚ
  deriving DecidableEq, Repr

/-- Whole replay state: the `temp_positions` dict plus the `history` list. -/
structure EngineState where
  positions : List (String × PosData)
  history : List HistoryEntry
  deriving DecidableEq, Repr

/-- Composite position key `f"{trader}-{product}-{contract}"`. -/
def tradeKey (t : Trade) : String :=
  t.trader ++ "-" ++ t.product ++ "-" ++ t.contract

/-- Fresh position created on the first trade touching a key. -/
def freshPos (t : Trade) : PosData :=
  { trader := t.trader, product := t.product, contract := t.contract,
    quantity := 0, total_value := 0, last_update := t.date }

/-- Near-zero position tolerance (the literal `0.0001` in the source). -/
def tol : ℚ := 1 / 10000

/-- Guarded average price `total_value / quantity if quantity != 0 else 0`. -/
def posAvgPrice (total_value quantity : ℚ) : ℚ :=
  if quantity ≠ 0 then total_value / quantity else 0

/-- Opening or same-direction add (and the Adjustment bypass):
`total_value += quantity * price; quantity += quantity`. -/
def applyOpen (pos : PosData) (t : Trade) : PosData :=
  { pos with total_value := pos.total_value + t.quantity * t.price,
             quantity := pos.quantity + t.quantity }

/-- Position update of a Regular closing trade: partial closes scale
`total_value` by the surviving fraction, otherwise `total_value` is zeroed;
`quantity += trade.quantity` unconditionally. -/
def closeUpdate (pos : PosData) (t : Trade) : PosData :=
  let close_qty := min |pos.quantity| |t.quantity|
  if |pos.quantity| - close_qty > tol then
    { pos with
        total_value := pos.total_value * ((|pos.quantity| - close_qty) / |pos.quantity|),
        quantity := pos.quantity + t.quantity }
  else
    { pos with total_value := 0, quantity := pos.quantity + t.quantity }

/-- History record produced by a Regular closing trade (engine.py lines 66-97). -/
def closureEntry (cfg : EngineConfig) (pos : PosData) (t : Trade) : HistoryEntry :=
  let multiplier := getContractMultiplier t.product cfg.ttfMultiplier
  let close_qty := min |pos.quantity| |t.quantity|
  let direction : ℚ := if pos.quantity > 0 then 1 else -1
  let avg_price := posAvgPrice pos.total_value pos.quantity
  let gross := (t.price - avg_price) * close_qty * direction * multiplier
  let fee_rate := getFeeRate t.product cfg.fees
  let fee := close_qty * multiplier * 2 * fee_rate
  { date := t.date, trader := t.trader, product := t.product, contract := t.contract,
    closed_quantity := close_qty * direction * (-1),
    open_price := avg_price, close_price := t.price,
    realized_pl := gross - fee, multiplier := multiplier, fee := fee }

/-- One iteration of the replay loop of `PositionEngine.calculate_positions`. -/
def step (cfg : EngineConfig) (s : EngineState) (t : Trade) : EngineState :=
  let key := tradeKey t
  let positions₀ :=
    if (dictGet key s.positions).isSome then s.positions
    else s.positions ++ [(key, freshPos t)]
  let pos := (dictGet key positions₀).getD (freshPos t)
  if pos.quantity ≠ 0 ∧ pos.quantity * t.quantity < 0 then
    if t.type = TradeType.regular then
      { positions := dictSet key (closeUpdate pos t) positions₀,
        history := s.history ++ [closureEntry cfg pos t] }
    else
      { positions := dictSet key (applyOpen pos t) positions₀, history := s.history }
  else
    { positions := dictSet key (applyOpen pos t) positions₀, history := s.history }

/-- Stable insertion by trade date: `t` goes before the first strictly later
element, after all earlier-or-equal ones. -/
def insertByDate (t : Trade) : List Trade → List Trade
  | [] => [t]
  | u :: rest => if t.date ≤ u.date then t :: u :: rest else u :: insertByDate t rest

/-- Stable sort by timestamp, the semantics of Python's
`active_trades.sort(key=lambda x: x.date)`. -/
def sortByDate : List Trade → List Trade
  | [] => []
  | t :: rest => insertByDate t (sortByDate rest)

/-- Output position snapshot (the dicts of the final list comprehension). -/
structure PositionOut where
  key : String
  trader : String
  product : String
  contract : String
  quantity : ℚ
  total_value : ℚ
  avg_price : ℚ
  deriving DecidableEq, Repr

/-- Final list comprehension of `calculate_positions`: keep `|quantity| > 1e-4`
and attach the derived `avg_price`. -/
def outputPositions (l : List (String × PosData)) : List PositionOut :=
  (l.filter (fun kd => decide (tol < |kd.2.quantity|))).map (fun kd =>
    { key := kd.1, trader := kd.2.trader, product := kd.2.product,
      contract := kd.2.contract, quantity := kd.2.quantity,
      total_value := kd.2.total_value,
      avg_price := if tol < |kd.2.quantity| then kd.2.total_value / kd.2.quantity else 0 })

/-- Replay of a (pre-filtered, pre-sorted) trade list from a state. -/
def replay (cfg : EngineConfig) (s : EngineState) (trades : List Trade) : EngineState :=
  trades.foldl (step cfg) s

/-- Source `PositionEngine.calculate_positions`: filter Active, stable-sort by date,
replay, then emit (positions, history). -/
def calculate_positions (trades : List Trade) (cfg : EngineConfig) :
    List PositionOut × List HistoryEntry :=
  let active := trades.filter (fun t => decide (t.status = TradeStatus.active))
  let final := replay cfg { positions := [], history := [] } (sortByDate active)
  (outputPositions final.positions, final.history)

/-- Source `PositionEngine.calculate_floating_pnl`: gross mark-to-market value minus
the unrealized (single-sided) fee. -/
def calculate_floating_pnl (cfg : EngineConfig) (position : PositionOut)
    (mtm_price : ℚ) : ℚ :=
  let multiplier := getContractMultiplier position.product cfg.ttfMultiplier
  let gross := (mtm_price * position.quantity - position.total_value) * multiplier
  let fee_rate := getFeeRate position.product cfg.fees
  let unrealized_fee := |position.quantity| * multiplier * fee_rate
  gross - unrealized_fee

/-- Source `PositionEngine.calculate_total_floating`: per position, look up the exact
`product::contract` mark price, else fall back to `total_value / quantity`
(guarded), and sum the floating PnL. -/
def calculate_total_floating (cfg : EngineConfig) (positions : List PositionOut)
    (market_prices : List (String × ℚ)) : ℚ :=
  positions.foldl (fun total pos =>
    let mtm :=
      match dictGet (pos.product ++ "::" ++ pos.contract) market_prices with
      | some m => m
      | none => if pos.quantity ≠ 0 then pos.total_value / pos.quantity else 0
    total + calculate_floating_pnl cfg pos mtm) 0

/-- Mark-price resolution of `app/api/positions.py` (`get_positions`): exact
`product::contract` key, else `GENERIC::contract`, else the position's own
average price. -/
def resolveMtmApi (market_prices : List (String × ℚ)) (pos : PositionOut) : ℚ :=
  match dictGet (pos.product ++ "::" ++ pos.contract) market_prices with
  | some m => m
  | none =>
    match dictGet ("GENERIC::" ++ pos.contract) market_prices with
    | some m => m
    | none => pos.avg_price

/-- The `total_floating` accumulation of the `get_positions` loop. -/
def apiTotalFloating (cfg : EngineConfig) (positions : List PositionOut)
    (market_prices : List (String × ℚ)) : ℚ :=
  positions.foldl (fun total pos =>
    total + calculate_floating_pnl cfg pos (resolveMtmApi market_prices pos)) 0

/-- Source `PNLCalculator.calculate_realized_total`: start from `initial_pl` and add
each entry's `realized_pl`, restricted to `date >= filter_date` when a filter
is supplied. -/
def calculate_realized_total (history : List HistoryEntry) (initial_pl : ℚ)
    (filter_date : Option Int) : ℚ :=
  history.foldl (fun total h =>
    match filter_date with
    | some fd => if fd ≤ h.date then total + h.realized_pl else total
    | none => total + h.realized_pl) initial_pl

/-- Realized-total wiring of `get_reconciliation_data`: the initial carry is
passed only when no date filter is applied, otherwise 0 is passed. -/
def reconRealizedTotal (history : List HistoryEntry) (initialRealizedPL : ℚ)
    (filter_date : Option Int) : ℚ :=
  calculate_realized_total history
    (match filter_date with | none => initialRealizedPL | some _ => 0) filter_date

/-- Reconciliation net value of `get_reconciliation_data`. -/
def reconNetValue (realized_total floating_total base other : ℚ) : ℚ :=
  realized_total + floating_total - base - other

/-- Result record of `check_reconciliation`. -/
structure ReconCheckResult where
  statement_value : ℚ
  net_value : ℚ
  diff : ℚ
  is_match : Bool
  deriving DecidableEq, Repr

/-- Source `check_reconciliation`: diff of statement against net value, matching
within an absolute tolerance of one unit. -/
def check_reconciliation (statement_value net_value : ℚ) : ReconCheckResult :=
  let d := statement_value - net_value
  { statement_value := statement_value, net_value := net_value, diff := d,
    is_match := decide (|d| < 1) }

/-- Rewrite of a realized-closure entry under a doubled TTF scaling factor:
TTF entries double their monetary fields, all other entries are untouched. -/
def scaleTTFEntry (e : HistoryEntry) : HistoryEntry :=
  if e.product = "TTF" then
    { e with realized_pl := 2 * e.realized_pl, multiplier := 2 * e.multiplier,
             fee := 2 * e.fee }
  else e

/-- Configuration used by the concrete scenarios: no fees, default TTF knob. -/
def cfgA : EngineConfig :=
  { fees := { brentPerBbl := none, hhPerMMBtu := none }, ttfMultiplier := 3412 }

/-- Scenario A, trade 1: +10 Brent 2602 at 80, Regular. -/
def tA1 : Trade :=
  { date := 1, trader := "W", product := "Brent", contract := "2602",
    quantity := 10, price := 80, status := TradeStatus.active, type := TradeType.regular }

/-- Scenario A, trade 2: -10 Brent 2602 at 85, Regular. -/
def tA2 : Trade :=
  { date := 2, trader := "W", product := "Brent", contract := "2602",
    quantity := -10, price := 85, status := TradeStatus.active, type := TradeType.regular }

/-- Scenario B, trade 2: -4 Brent 2602 at 85, Regular. -/
def tB2 : Trade :=
  { date := 2, trader := "W", product := "Brent", contract := "2602",
    quantity := -4, price := 85, status := TradeStatus.active, type := TradeType.regular }

/-- Over-closing trade: -15 Brent 2602 at 85, Regular. -/
def tG2 : Trade :=
  { date := 2, trader := "W", product := "Brent", contract := "2602",
    quantity := -15, price := 85, status := TradeStatus.active, type := TradeType.regular }

/-- Opposing Adjustment-kind trade: -10 Brent 2602 at 85. -/
def tAdj : Trade :=
  { date := 2, trader := "W", product := "Brent", contract := "2602",
    quantity := -10, price := 85, status := TradeStatus.active, type := TradeType.adjustment }

/-- Zero-quantity Regular trade. -/
def tZ : Trade :=
  { date := 1, trader := "W", product := "Brent", contract := "2602",
    quantity := 0, price := 0, status := TradeStatus.active, type := TradeType.regular }

/-- Running position of 10 Brent 2602 lots at total value 800 (avg 80). -/
def pdW : PosData :=
  { trader := "W", product := "Brent", contract := "2602",
    quantity := 10, total_value := 800, last_update := 1 }

/-- Replay state holding just the position `pdW`. -/
def sW : EngineState :=
  { positions := [("W-Brent-2602", pdW)], history := [] }

/-- Output snapshot of a long 1-lot Brent 2602 position at average price 80. -/
def posG : PositionOut :=
  { key := "W-Brent-2602", trader := "W", product := "Brent", contract := "2602",
    quantity := 1, total_value := 80, avg_price := 80 }

/-- Mark-price map holding only a generic-contract entry for contract 2602. -/
def mpG : List (String × ℚ) := [("GENERIC::2602", 85)]

/-- Output snapshot of a long 2-lot TTF 2602 position at average price 30. -/
def posT : PositionOut :=
  { key := "W-TTF-2602", trader := "W", product := "TTF", contract := "2602",
    quantity := 2, total_value := 60, avg_price := 30 }

/-- TTF trade 1: +2 TTF 2602 at 30, Regular. -/
def tT1 : Trade :=
  { date := 1, trader := "W", product := "TTF", contract := "2602",
    quantity := 2, price := 30, status := TradeStatus.active, type := TradeType.regular }

/-- TTF trade 2: -2 TTF 2602 at 31, Regular. -/
def tT2 : Trade :=
  { date := 2, trader := "W", product := "TTF", contract := "2602",
    quantity := -2, price := 31, status := TradeStatus.active, type := TradeType.regular }

/-- Mark-price map holding only the exact Brent 2602 key. -/
def mpE : List (String × ℚ) := [("Brent::2602", 85)]

section Lemmas

lemma dictGet_dictSet_self {α : Type} (k : String) (v : α) (l : List (String × α))
    (h : (dictGet k l).isSome) : dictGet k (dictSet k v l) = some v := by
  induction l with
  | nil => simp [dictGet] at h
  | cons kv rest ih =>
    obtain ⟨k₂, v₂⟩ := kv
    by_cases hk : k = k₂
    · simp [dictGet, dictSet, hk]
    · simp only [dictGet, dictSet, if_neg hk] at h ⊢
      exact ih h

lemma dictGet_append_of_none {α : Type} (k : String) (l m : List (String × α))
    (h : dictGet k l = none) : dictGet k (l ++ m) = dictGet k m := by
  induction l with
  | nil => simp
  | cons kv rest ih =>
    obtain ⟨k₂, v₂⟩ := kv
    by_cases hk : k = k₂
    · simp [dictGet, hk] at h
    · simp only [dictGet, if_neg hk] at h
      simpa [dictGet, if_neg hk] using ih h

lemma step_close (cfg : EngineConfig) (s : EngineState) (t : Trade) (pos : PosData)
    (hl : dictGet (tradeKey t) s.positions = some pos)
    (hq : pos.quantity ≠ 0) (hop : pos.quantity * t.quantity < 0)
    (hreg : t.type = TradeType.regular) :
    step cfg s t =
      { positions := dictSet (tradeKey t) (closeUpdate pos t) s.positions,
        history := s.history ++ [closureEntry cfg pos t] } := by
  simp [step, hl, hq, hop, hreg]

lemma step_adjust_opposing (cfg : EngineConfig) (s : EngineState) (t : Trade) (pos : PosData)
    (hl : dictGet (tradeKey t) s.positions = some pos)
    (hq : pos.quantity ≠ 0) (hop : pos.quantity * t.quantity < 0)
    (hadj : t.type = TradeType.adjustment) :
    step cfg s t =
      { positions := dictSet (tradeKey t) (applyOpen pos t) s.positions,
        history := s.history } := by
  simp [step, hl, hq, hop, hadj]

lemma step_open_some (cfg : EngineConfig) (s : EngineState) (t : Trade) (pos : PosData)
    (hl : dictGet (tradeKey t) s.positions = some pos)
    (hno : ¬(pos.quantity ≠ 0 ∧ pos.quantity * t.quantity < 0)) :
    step cfg s t =
      { positions := dictSet (tradeKey t) (applyOpen pos t) s.positions,
        history := s.history } := by
  simp only [step, hl, Option.isSome_some, if_true, Option.getD_some]
  rw [if_neg hno]

lemma step_open_none (cfg : EngineConfig) (s : EngineState) (t : Trade)
    (hl : dictGet (tradeKey t) s.positions = none) :
    step cfg s t =
      { positions := dictSet (tradeKey t) (applyOpen (freshPos t) t)
          (s.positions ++ [(tradeKey t, freshPos t)]),
        history := s.history } := by
  have hget : dictGet (tradeKey t) (s.positions ++ [(tradeKey t, freshPos t)]) =
      some (freshPos t) := by
    rw [dictGet_append_of_none _ _ _ hl]
    simp [dictGet]
  simp only [step, hl, Option.isSome_none, Bool.false_eq_true, if_false, hget,
    Option.getD_some]
  rw [if_neg]
  simp [freshPos]

end Lemmas

/-- C1: a Regular-kind trade opposing an existing nonzero position appends
exactly one realized-closure entry, with close_qty the minimum of the two
magnitudes, direction the sign of the existing quantity, gross
(price - avg_price) * close_qty * direction * multiplier, round-trip fee,
realized_pl = gross - fee and closed_quantity = close_qty * direction * -1;
in Scenario A the single entry realizes 50000 and the position is dropped. -/
theorem C1_regular_close_entry (cfg : EngineConfig) (s : EngineState) (t : Trade)
    (pos : PosData) (hl : dictGet (tradeKey t) s.positions = some pos)
    (hq : pos.quantity ≠ 0) (hop : pos.quantity * t.quantity < 0)
    (hreg : t.type = TradeType.regular) :
    (step cfg s t).history = s.history ++
      [{ date := t.date, trader := t.trader, product := t.product, contract := t.contract,
         closed_quantity := min |pos.quantity| |t.quantity| *
           (if pos.quantity > 0 then 1 else -1) * (-1),
         open_price := pos.total_value / pos.quantity,
         close_price := t.price,
         realized_pl :=
           (t.price - pos.total_value / pos.quantity) * min |pos.quantity| |t.quantity| *
               (if pos.quantity > 0 then 1 else -1) *
               getContractMultiplier t.product cfg.ttfMultiplier -
             min |pos.quantity| |t.quantity| *
               getContractMultiplier t.product cfg.ttfMultiplier * 2 *
               getFeeRate t.product cfg.fees,
         multiplier := getContractMultiplier t.product cfg.ttfMultiplier,
         fee := min |pos.quantity| |t.quantity| *
           getContractMultiplier t.product cfg.ttfMultiplier * 2 *
           getFeeRate t.product cfg.fees }] ∧
    (calculate_positions [tA1, tA2] cfgA).1 = [] ∧
    ((calculate_positions [tA1, tA2] cfgA).2).map (fun e => e.realized_pl) = [50000] := by
  refine ⟨?_, ?_⟩
  · rw [step_close cfg s t pos hl hq hop hreg]
    simp [closureEntry, posAvgPrice, hq]
  · constructor <;>
      (norm_num [calculate_positions, replay, step, sortByDate, insertByDate, tA1, tA2, cfgA,
        tradeKey, freshPos, dictGet, dictSet, closeUpdate, closureEntry, applyOpen, posAvgPrice,
        getContractMultiplier, getFeeRate, CONTRACT_MULTIPLIERS, outputPositions, tol] <;>
        decide)

/-- Witness for C1 at the concrete Scenario-A closing trade. -/
theorem C1_regular_close_entry_witness :
    (dictGet (tradeKey tA2) sW.positions = some pdW ∧ pdW.quantity ≠ 0 ∧
      pdW.quantity * tA2.quantity < 0 ∧ tA2.type = TradeType.regular) ∧
    ((step cfgA sW tA2).history = sW.history ++
      [{ date := tA2.date, trader := tA2.trader, product := tA2.product,
         contract := tA2.contract,
         closed_quantity := min |pdW.quantity| |tA2.quantity| *
           (if pdW.quantity > 0 then 1 else -1) * (-1),
         open_price := pdW.total_value / pdW.quantity,
         close_price := tA2.price,
         realized_pl :=
           (tA2.price - pdW.total_value / pdW.quantity) * min |pdW.quantity| |tA2.quantity| *
               (if pdW.quantity > 0 then 1 else -1) *
               getContractMultiplier tA2.product cfgA.ttfMultiplier -
             min |pdW.quantity| |tA2.quantity| *
               getContractMultiplier tA2.product cfgA.ttfMultiplier * 2 *
               getFeeRate tA2.product cfgA.fees,
         multiplier := getContractMultiplier tA2.product cfgA.ttfMultiplier,
         fee := min |pdW.quantity| |tA2.quantity| *
           getContractMultiplier tA2.product cfgA.ttfMultiplier * 2 *
           getFeeRate tA2.product cfgA.fees }] ∧
    (calculate_positions [tA1, tA2] cfgA).1 = [] ∧
    ((calculate_positions [tA1, tA2] cfgA).2).map (fun e => e.realized_pl) = [50000]) := by
  have h1 : dictGet (tradeKey tA2) sW.positions = some pdW := by decide
  have h2 : pdW.quantity ≠ 0 := by norm_num [pdW]
  have h3 : pdW.quantity * tA2.quantity < 0 := by norm_num [pdW, tA2]
  have h4 : tA2.type = TradeType.regular := rfl
  exact ⟨⟨h1, h2, h3, h4⟩, C1_regular_close_entry cfgA sW tA2 pdW h1 h2 h3 h4⟩


/-- Scaling the cost basis by the surviving fraction of a partial close leaves
the average price unchanged. -/
lemma fractional_close_avg (q tq tv : ℚ) (hop : q * tq < 0)
    (hpart : |q| - min |q| |tq| > tol) :
    tv * ((|q| - min |q| |tq|) / |q|) / (q + tq) = tv / q := by
  have htol : (0:ℚ) < tol := by norm_num [tol]
  rcases mul_neg_iff.mp hop with ⟨hq, htq⟩ | ⟨hq, htq⟩
  · rw [abs_of_pos hq, abs_of_neg htq] at hpart ⊢
    have hlt : -tq < q := by
      by_contra hle
      push_neg at hle
      rw [min_eq_left hle] at hpart
      linarith
    rw [min_eq_right (le_of_lt hlt)] at hpart ⊢
    have hq0 : q ≠ 0 := ne_of_gt hq
    have hs0 : q + tq ≠ 0 := by
      have : 0 < q + tq := by linarith
      exact ne_of_gt this
    field_simp
    ring
  · rw [abs_of_neg hq, abs_of_pos htq] at hpart ⊢
    have hlt : tq < -q := by
      by_contra hle
      push_neg at hle
      rw [min_eq_left hle] at hpart
      linarith
    rw [min_eq_right (le_of_lt hlt)] at hpart ⊢
    have hq0 : q ≠ 0 := ne_of_lt hq
    have hs0 : q + tq ≠ 0 := by
      have : q + tq < 0 := by linarith
      exact ne_of_lt this
    field_simp
    ring

/-- C2: a partial Regular close preserves the average price exactly: the
residual total_value is the pre-trade total_value scaled by the surviving
fraction, and residual total_value / quantity equals the pre-trade ratio;
Scenario B leaves +6 lots at average price 80. -/
theorem C2_fractional_close_invariant (cfg : EngineConfig) (s : EngineState) (t : Trade)
    (pos : PosData) (hl : dictGet (tradeKey t) s.positions = some pos)
    (hq : pos.quantity ≠ 0) (hop : pos.quantity * t.quantity < 0)
    (hreg : t.type = TradeType.regular)
    (hpart : |pos.quantity| - min |pos.quantity| |t.quantity| > tol) :
    (∃ pd, dictGet (tradeKey t) (step cfg s t).positions = some pd ∧
      pd.total_value = pos.total_value *
        ((|pos.quantity| - min |pos.quantity| |t.quantity|) / |pos.quantity|) ∧
      pd.quantity = pos.quantity + t.quantity ∧
      pd.total_value / pd.quantity = pos.total_value / pos.quantity) ∧
    (calculate_positions [tA1, tB2] cfgA).1 =
      [{ key := "W-Brent-2602", trader := "W", product := "Brent", contract := "2602",
         quantity := 6, total_value := 480, avg_price := 80 }] ∧
    ((calculate_positions [tA1, tB2] cfgA).2).map (fun e => e.realized_pl) = [20000] := by
  refine ⟨⟨closeUpdate pos t, ?_, ?_, ?_, ?_⟩, ?_⟩
  · rw [step_close cfg s t pos hl hq hop hreg]
    exact dictGet_dictSet_self _ _ _ (by rw [hl]; rfl)
  · simp [closeUpdate, if_pos hpart]
  · simp [closeUpdate, if_pos hpart]
  · simp only [closeUpdate, if_pos hpart]
    exact fractional_close_avg pos.quantity t.quantity pos.total_value hop hpart
  · constructor <;>
      (norm_num [calculate_positions, replay, step, sortByDate, insertByDate, tA1, tB2, cfgA,
        tradeKey, freshPos, dictGet, dictSet, closeUpdate, closureEntry, applyOpen, posAvgPrice,
        getContractMultiplier, getFeeRate, CONTRACT_MULTIPLIERS, outputPositions, tol] <;>
        decide)

/-- Witness for C2 at the concrete Scenario-B closing trade. -/
theorem C2_fractional_close_invariant_witness :
    (dictGet (tradeKey tB2) sW.positions = some pdW ∧ pdW.quantity ≠ 0 ∧
      pdW.quantity * tB2.quantity < 0 ∧ tB2.type = TradeType.regular ∧
      |pdW.quantity| - min |pdW.quantity| |tB2.quantity| > tol) ∧
    ((∃ pd, dictGet (tradeKey tB2) (step cfgA sW tB2).positions = some pd ∧
      pd.total_value = pdW.total_value *
        ((|pdW.quantity| - min |pdW.quantity| |tB2.quantity|) / |pdW.quantity|) ∧
      pd.quantity = pdW.quantity + tB2.quantity ∧
      pd.total_value / pd.quantity = pdW.total_value / pdW.quantity) ∧
    (calculate_positions [tA1, tB2] cfgA).1 =
      [{ key := "W-Brent-2602", trader := "W", product := "Brent", contract := "2602",
         quantity := 6, total_value := 480, avg_price := 80 }] ∧
    ((calculate_positions [tA1, tB2] cfgA).2).map (fun e => e.realized_pl) = [20000]) := by
  have h1 : dictGet (tradeKey tB2) sW.positions = some pdW := by decide
  have h2 : pdW.quantity ≠ 0 := by norm_num [pdW]
  have h3 : pdW.quantity * tB2.quantity < 0 := by norm_num [pdW, tB2]
  have h4 : tB2.type = TradeType.regular := rfl
  have h5 : |pdW.quantity| - min |pdW.quantity| |tB2.quantity| > tol := by
    norm_num [pdW, tB2, tol]
  exact ⟨⟨h1, h2, h3, h4, h5⟩, C2_fractional_close_invariant cfgA sW tB2 pdW h1 h2 h3 h4 h5⟩

/-- An Adjustment-kind trade never appends a history entry. -/
lemma step_adjustment_history (cfg : EngineConfig) (s : EngineState) (t : Trade)
    (ht : t.type = TradeType.adjustment) : (step cfg s t).history = s.history := by
  rcases hcase : dictGet (tradeKey t) s.positions with _ | pos
  · rw [step_open_none cfg s t hcase]
  · by_cases hcond : pos.quantity ≠ 0 ∧ pos.quantity * t.quantity < 0
    · rw [step_adjust_opposing cfg s t pos hcase hcond.1 hcond.2 ht]
    · rw [step_open_some cfg s t pos hcase hcond]

/-- Membership in a dated insertion. -/
lemma mem_insertByDate {u t : Trade} {l : List Trade} :
    u ∈ insertByDate t l ↔ u = t ∨ u ∈ l := by
  induction l with
  | nil => simp [insertByDate]
  | cons v rest ih =>
    simp only [insertByDate]
    by_cases h : t.date ≤ v.date
    · simp [h]
    · simp only [if_neg h, List.mem_cons, ih]
      tauto

/-- Sorting by date preserves membership. -/
lemma mem_sortByDate {u : Trade} {l : List Trade} : u ∈ sortByDate l ↔ u ∈ l := by
  induction l with
  | nil => simp [sortByDate]
  | cons t rest ih => simp [sortByDate, mem_insertByDate, ih]

/-- Replaying only Adjustment-kind trades leaves the history unchanged. -/
lemma replay_history_of_adjustments (cfg : EngineConfig) (trades : List Trade) :
    ∀ s : EngineState, (∀ u ∈ trades, u.type = TradeType.adjustment) →
      (replay cfg s trades).history = s.history := by
  induction trades with
  | nil => intro s _; rfl
  | cons t rest ih =>
    intro s hall
    have hr : replay cfg s (t :: rest) = replay cfg (step cfg s t) rest := rfl
    rw [hr, ih _ (fun u hu => hall u (List.mem_cons_of_mem _ hu)),
        step_adjustment_history cfg s t (hall t (List.mem_cons_self _ _))]

/-- C3: an Adjustment-kind trade produces no realized-closure entry even when
it opposes an existing position, and updates the position exactly as an
opening trade would; a replay of only Adjustment trades has empty history. -/
theorem C3_adjustment_bypass (cfg : EngineConfig) (s : EngineState) (t : Trade)
    (trades : List Trade) (ht : t.type = TradeType.adjustment)
    (hall : ∀ u ∈ trades, u.type = TradeType.adjustment) :
    (step cfg s t).history = s.history ∧
    (∃ pd, dictGet (tradeKey t) (step cfg s t).positions = some pd ∧
      pd.total_value = ((dictGet (tradeKey t) s.positions).getD (freshPos t)).total_value +
        t.quantity * t.price ∧
      pd.quantity = ((dictGet (tradeKey t) s.positions).getD (freshPos t)).quantity +
        t.quantity) ∧
    (calculate_positions trades cfg).2 = [] := by
  refine ⟨step_adjustment_history cfg s t ht, ?_, ?_⟩
  · rcases hcase : dictGet (tradeKey t) s.positions with _ | pos
    · refine ⟨applyOpen (freshPos t) t, ?_, by simp [applyOpen], by simp [applyOpen]⟩
      rw [step_open_none cfg s t hcase]
      refine dictGet_dictSet_self _ _ _ ?_
      rw [dictGet_append_of_none _ _ _ hcase]
      simp [dictGet]
    · have hget : dictGet (tradeKey t) (step cfg s t).positions = some (applyOpen pos t) := by
        by_cases hcond : pos.quantity ≠ 0 ∧ pos.quantity * t.quantity < 0
        · rw [step_adjust_opposing cfg s t pos hcase hcond.1 hcond.2 ht]
          exact dictGet_dictSet_self _ _ _ (by rw [hcase]; rfl)
        · rw [step_open_some cfg s t pos hcase hcond]
          exact dictGet_dictSet_self _ _ _ (by rw [hcase]; rfl)
      exact ⟨applyOpen pos t, hget, by simp [hcase, applyOpen], by simp [hcase, applyOpen]⟩
  · show (replay cfg { positions := [], history := [] } _).history = []
    refine replay_history_of_adjustments cfg _ _ (fun u hu => ?_)
    rw [mem_sortByDate] at hu
    exact hall u (List.mem_of_mem_filter hu)

/-- Witness for C3 at a concrete opposing Adjustment trade. -/
theorem C3_adjustment_bypass_witness :
    (tAdj.type = TradeType.adjustment ∧ ∀ u ∈ [tAdj], u.type = TradeType.adjustment) ∧
    ((step cfgA sW tAdj).history = sW.history ∧
    (∃ pd, dictGet (tradeKey tAdj) (step cfgA sW tAdj).positions = some pd ∧
      pd.total_value = ((dictGet (tradeKey tAdj) sW.positions).getD (freshPos tAdj)).total_value +
        tAdj.quantity * tAdj.price ∧
      pd.quantity = ((dictGet (tradeKey tAdj) sW.positions).getD (freshPos tAdj)).quantity +
        tAdj.quantity) ∧
    (calculate_positions [tAdj] cfgA).2 = []) := by
  have h1 : tAdj.type = TradeType.adjustment := rfl
  have h2 : ∀ u ∈ [tAdj], u.type = TradeType.adjustment := by
    intro u hu
    rw [List.mem_singleton] at hu
    rw [hu]
    exact h1
  exact ⟨⟨h1, h2⟩, C3_adjustment_bypass cfgA sW tAdj [tAdj] h1 h2⟩

/-- Unfiltered realized total: the initial carry plus the sum of entries. -/
lemma calculate_realized_total_none (history : List HistoryEntry) :
    ∀ init : ℚ, calculate_realized_total history init none =
      init + (history.map (fun e => e.realized_pl)).sum := by
  induction history with
  | nil => intro init; simp [calculate_realized_total]
  | cons h rest ih =>
    intro init
    show calculate_realized_total rest (init + h.realized_pl) none = _
    rw [ih (init + h.realized_pl)]
    simp [List.sum_cons]
    ring

/-- Filtered realized total: the initial argument plus the sum over entries at
or after the cutoff. -/
lemma calculate_realized_total_some (history : List HistoryEntry) (fd : Int) :
    ∀ init : ℚ, calculate_realized_total history init (some fd) =
      init + ((history.filter (fun e => fd ≤ e.date)).map (fun e => e.realized_pl)).sum := by
  induction history with
  | nil => intro init; simp [calculate_realized_total]
  | cons h rest ih =>
    intro init
    by_cases hd : fd ≤ h.date
    · show calculate_realized_total rest (if fd ≤ h.date then init + h.realized_pl else init)
        (some fd) = _
      rw [if_pos hd, ih (init + h.realized_pl), List.filter_cons_of_pos (by simpa using hd)]
      simp [List.sum_cons]
      ring
    · show calculate_realized_total rest (if fd ≤ h.date then init + h.realized_pl else init)
        (some fd) = _
      rw [if_neg hd, ih init, List.filter_cons_of_neg (by simpa using hd)]

/-- C4: the reconciliation realized total equals initial carry plus the sum of
all realized_pl when no date filter is supplied, and the sum over entries at
or after the cutoff, carry excluded, when a filter is supplied. -/
theorem C4_realized_aggregation (history : List HistoryEntry) (init : ℚ) (fd : Int) :
    reconRealizedTotal history init none =
      init + (history.map (fun e => e.realized_pl)).sum ∧
    reconRealizedTotal history init (some fd) =
      ((history.filter (fun e => fd ≤ e.date)).map (fun e => e.realized_pl)).sum := by
  constructor
  · exact calculate_realized_total_none history init
  · show calculate_realized_total history 0 (some fd) = _
    rw [calculate_realized_total_some history fd 0, zero_add]

/-- A left fold of additions is the starting value plus the mapped sum. -/
lemma foldl_add_map {α : Type} (f : α → ℚ) :
    ∀ (l : List α) (acc : ℚ), l.foldl (fun total x => total + f x) acc = acc + (l.map f).sum := by
  intro l
  induction l with
  | nil => intro acc; simp
  | cons x rest ih =>
    intro acc
    simp only [List.foldl_cons, List.map_cons, List.sum_cons, ih (acc + f x)]
    ring

/-- C5 counterexample: with only a generic-contract mark price present, the
reconciliation total-floating path values the position at its own average
price (floating 0) while the three-tier lookup would use the generic mark
(floating 5000) — so the three-tier order does not hold on that path. -/
theorem C5_counterexample :
    resolveMtmApi mpG posG = 85 ∧
    calculate_total_floating cfgA [posG] mpG = 0 ∧
    calculate_floating_pnl cfgA posG (resolveMtmApi mpG posG) = 5000 ∧
    calculate_total_floating cfgA [posG] mpG ≠
      calculate_floating_pnl cfgA posG (resolveMtmApi mpG posG) := by
  have h1 : resolveMtmApi mpG posG = 85 := by
    simp [resolveMtmApi, mpG, posG, dictGet]
  have h2 : calculate_total_floating cfgA [posG] mpG = 0 := by
    simp [calculate_total_floating, calculate_floating_pnl, cfgA, mpG, posG, dictGet,
      getContractMultiplier, getFeeRate, CONTRACT_MULTIPLIERS]
  have h3 : calculate_floating_pnl cfgA posG (resolveMtmApi mpG posG) = 5000 := by
    rw [h1]
    simp [calculate_floating_pnl, cfgA, posG, getContractMultiplier, getFeeRate,
      CONTRACT_MULTIPLIERS, dictGet]
    norm_num
  refine ⟨h1, h2, h3, ?_⟩
  rw [h2, h3]
  norm_num

/-- C5 (amended): the positions-API path resolves the mark price by the
three-tier ordered lookup, while the reconciliation total-floating path skips
the generic tier; the two agree whenever no generic-key entry applies and
avg_price is consistent with total_value / quantity. -/
theorem C5_mark_price_resolution (cfg : EngineConfig) (positions : List PositionOut)
    (mp : List (String × ℚ)) (pos : PositionOut) (m m₂ : ℚ)
    (hng : ∀ p ∈ positions, dictGet ("GENERIC::" ++ p.contract) mp = none)
    (havg : ∀ p ∈ positions, p.avg_price = posAvgPrice p.total_value p.quantity) :
    (dictGet (pos.product ++ "::" ++ pos.contract) mp = some m → resolveMtmApi mp pos = m) ∧
    (dictGet (pos.product ++ "::" ++ pos.contract) mp = none →
      dictGet ("GENERIC::" ++ pos.contract) mp = some m₂ → resolveMtmApi mp pos = m₂) ∧
    (dictGet (pos.product ++ "::" ++ pos.contract) mp = none →
      dictGet ("GENERIC::" ++ pos.contract) mp = none →
      resolveMtmApi mp pos = pos.avg_price) ∧
    calculate_total_floating cfg positions mp = apiTotalFloating cfg positions mp := by
  refine ⟨?_, ?_, ?_, ?_⟩
  · intro he
    simp [resolveMtmApi, he]
  · intro he hg
    simp [resolveMtmApi, he, hg]
  · intro he hg
    simp [resolveMtmApi, he, hg]
  · simp only [calculate_total_floating, apiTotalFloating, foldl_add_map]
    congr 1
    apply congrArg List.sum
    apply List.map_congr_left
    intro p hp
    congr 1
    rcases he : dictGet (p.product ++ "::" ++ p.contract) mp with _ | m₃
    · simp only [resolveMtmApi, he, hng p hp]
      rw [havg p hp, posAvgPrice]
    · simp [resolveMtmApi, he]


/-- Witness for the amended C5 on a concrete one-position portfolio. -/
theorem C5_mark_price_resolution_witness :
    ((∀ p ∈ [posG], dictGet ("GENERIC::" ++ p.contract) mpE = none) ∧
      (∀ p ∈ [posG], p.avg_price = posAvgPrice p.total_value p.quantity)) ∧
    ((dictGet (posG.product ++ "::" ++ posG.contract) mpE = some 85 →
        resolveMtmApi mpE posG = 85) ∧
      (dictGet (posG.product ++ "::" ++ posG.contract) mpE = none →
        dictGet ("GENERIC::" ++ posG.contract) mpE = some 0 → resolveMtmApi mpE posG = 0) ∧
      (dictGet (posG.product ++ "::" ++ posG.contract) mpE = none →
        dictGet ("GENERIC::" ++ posG.contract) mpE = none →
        resolveMtmApi mpE posG = posG.avg_price) ∧
      calculate_total_floating cfgA [posG] mpE = apiTotalFloating cfgA [posG] mpE) := by
  have hng : ∀ p ∈ [posG], dictGet ("GENERIC::" ++ p.contract) mpE = none := by
    intro p hp
    rw [List.mem_singleton] at hp
    subst hp
    simp [mpE, posG, dictGet]
  have havg : ∀ p ∈ [posG], p.avg_price = posAvgPrice p.total_value p.quantity := by
    intro p hp
    rw [List.mem_singleton] at hp
    subst hp
    norm_num [posG, posAvgPrice]
  exact ⟨⟨hng, havg⟩, C5_mark_price_resolution cfgA [posG] mpE posG 85 0 hng havg⟩

/-- C6: net_value = realized + floating - base - other, diff = statement -
net_value, and is_match holds iff |diff| < 1 (absolute tolerance). -/
theorem C6_reconciliation_formulas (r f base other stmt : ℚ) :
    reconNetValue r f base other = r + f - base - other ∧
    (check_reconciliation stmt (reconNetValue r f base other)).net_value =
      r + f - base - other ∧
    (check_reconciliation stmt (reconNetValue r f base other)).diff =
      stmt - (r + f - base - other) ∧
    ((check_reconciliation stmt (reconNetValue r f base other)).is_match = true ↔
      |stmt - (r + f - base - other)| < 1) := by
  refine ⟨rfl, rfl, rfl, ?_⟩
  simp [check_reconciliation, reconNetValue]

/-- Over-closing flips the sign of the position to the trade's sign and leaves
magnitude |trade| - |existing|. -/
lemma overclose_sign (q tq : ℚ) (hop : q * tq < 0) (hover : |q| < |tq|) :
    (0 < q + tq ↔ 0 < tq) ∧ |q + tq| = |tq| - |q| := by
  rcases mul_neg_iff.mp hop with ⟨hq, htq⟩ | ⟨hq, htq⟩
  · rw [abs_of_pos hq, abs_of_neg htq] at hover ⊢
    have hs : q + tq < 0 := by linarith
    refine ⟨⟨fun h => absurd h (by linarith), fun h => absurd h (by linarith)⟩, ?_⟩
    rw [abs_of_neg hs]
    ring
  · rw [abs_of_neg hq, abs_of_pos htq] at hover ⊢
    have hs : 0 < q + tq := by linarith
    refine ⟨⟨fun _ => htq, fun _ => hs⟩, ?_⟩
    rw [abs_of_pos hs]
    ring

/-- C7: a Regular close larger than the existing position realizes only the
existing magnitude, zeroes total_value, and carries the flipped residual
forward at cost (and hence average price) zero. -/
theorem C7_close_through_zero (cfg : EngineConfig) (s : EngineState) (t : Trade)
    (pos : PosData) (hl : dictGet (tradeKey t) s.positions = some pos)
    (hq : pos.quantity ≠ 0) (hop : pos.quantity * t.quantity < 0)
    (hreg : t.type = TradeType.regular) (hover : |pos.quantity| < |t.quantity|) :
    (step cfg s t).history = s.history ++
      [{ date := t.date, trader := t.trader, product := t.product, contract := t.contract,
         closed_quantity := |pos.quantity| * (if pos.quantity > 0 then 1 else -1) * (-1),
         open_price := pos.total_value / pos.quantity,
         close_price := t.price,
         realized_pl :=
           (t.price - pos.total_value / pos.quantity) * |pos.quantity| *
               (if pos.quantity > 0 then 1 else -1) *
               getContractMultiplier t.product cfg.ttfMultiplier -
             |pos.quantity| * getContractMultiplier t.product cfg.ttfMultiplier * 2 *
               getFeeRate t.product cfg.fees,
         multiplier := getContractMultiplier t.product cfg.ttfMultiplier,
         fee := |pos.quantity| * getContractMultiplier t.product cfg.ttfMultiplier * 2 *
           getFeeRate t.product cfg.fees }] ∧
    (∃ pd, dictGet (tradeKey t) (step cfg s t).positions = some pd ∧
      pd.total_value = 0 ∧
      pd.quantity = pos.quantity + t.quantity ∧
      (0 < pd.quantity ↔ 0 < t.quantity) ∧
      |pd.quantity| = |t.quantity| - |pos.quantity| ∧
      posAvgPrice pd.total_value pd.quantity = 0) := by
  have hmin : min |pos.quantity| |t.quantity| = |pos.quantity| :=
    min_eq_left (le_of_lt hover)
  have hfull : ¬(|pos.quantity| - min |pos.quantity| |t.quantity| > tol) := by
    rw [hmin]
    norm_num [tol]
  constructor
  · rw [step_close cfg s t pos hl hq hop hreg]
    simp [closureEntry, posAvgPrice, hq, hmin]
  · refine ⟨closeUpdate pos t, ?_, ?_, ?_, ?_, ?_, ?_⟩
    · rw [step_close cfg s t pos hl hq hop hreg]
      exact dictGet_dictSet_self _ _ _ (by rw [hl]; rfl)
    · simp [closeUpdate, if_neg hfull]
    · simp [closeUpdate, if_neg hfull]
    · simp only [closeUpdate, if_neg hfull]
      exact (overclose_sign pos.quantity t.quantity hop hover).1
    · simp only [closeUpdate, if_neg hfull]
      exact (overclose_sign pos.quantity t.quantity hop hover).2
    · simp only [closeUpdate, if_neg hfull, posAvgPrice]
      split
      · exact zero_div _
      · rfl

/-- Witness for C7 at a concrete -15 trade against a +10 position. -/
theorem C7_close_through_zero_witness :
    (dictGet (tradeKey tG2) sW.positions = some pdW ∧ pdW.quantity ≠ 0 ∧
      pdW.quantity * tG2.quantity < 0 ∧ tG2.type = TradeType.regular ∧
      |pdW.quantity| < |tG2.quantity|) ∧
    ((step cfgA sW tG2).history = sW.history ++
      [{ date := tG2.date, trader := tG2.trader, product := tG2.product,
         contract := tG2.contract,
         closed_quantity := |pdW.quantity| * (if pdW.quantity > 0 then 1 else -1) * (-1),
         open_price := pdW.total_value / pdW.quantity,
         close_price := tG2.price,
         realized_pl :=
           (tG2.price - pdW.total_value / pdW.quantity) * |pdW.quantity| *
               (if pdW.quantity > 0 then 1 else -1) *
               getContractMultiplier tG2.product cfgA.ttfMultiplier -
             |pdW.quantity| * getContractMultiplier tG2.product cfgA.ttfMultiplier * 2 *
               getFeeRate tG2.product cfgA.fees,
         multiplier := getContractMultiplier tG2.product cfgA.ttfMultiplier,
         fee := |pdW.quantity| * getContractMultiplier tG2.product cfgA.ttfMultiplier * 2 *
           getFeeRate tG2.product cfgA.fees }] ∧
    (∃ pd, dictGet (tradeKey tG2) (step cfgA sW tG2).positions = some pd ∧
      pd.total_value = 0 ∧
      pd.quantity = pdW.quantity + tG2.quantity ∧
      (0 < pd.quantity ↔ 0 < tG2.quantity) ∧
      |pd.quantity| = |tG2.quantity| - |pdW.quantity| ∧
      posAvgPrice pd.total_value pd.quantity = 0)) := by
  have h1 : dictGet (tradeKey tG2) sW.positions = some pdW := by decide
  have h2 : pdW.quantity ≠ 0 := by norm_num [pdW]
  have h3 : pdW.quantity * tG2.quantity < 0 := by norm_num [pdW, tG2]
  have h4 : tG2.type = TradeType.regular := rfl
  have h5 : |pdW.quantity| < |tG2.quantity| := by norm_num [pdW, tG2]
  exact ⟨⟨h1, h2, h3, h4, h5⟩, C7_close_through_zero cfgA sW tG2 pdW h1 h2 h3 h4 h5⟩


/-- The effective TTF multiplier is the base 10000 times the configured knob. -/
lemma getContractMultiplier_TTF (k : ℚ) : getContractMultiplier "TTF" k = 10000 * k := by
  simp [getContractMultiplier, CONTRACT_MULTIPLIERS, dictGet]

/-- Products other than TTF ignore the TTF scaling knob. -/
lemma getContractMultiplier_of_ne (p : String) (k k₂ : ℚ) (hp : p ≠ "TTF") :
    getContractMultiplier p k = getContractMultiplier p k₂ := by
  simp [getContractMultiplier, hp]

/-- The positions component of a step does not depend on the configuration or
on the history. -/
lemma step_positions_congr (cfg cfg' : EngineConfig) (s s' : EngineState) (t : Trade)
    (h : s.positions = s'.positions) :
    (step cfg s t).positions = (step cfg' s' t).positions := by
  simp only [step, h]
  repeat' split
  all_goals rfl

/-- Doubling the TTF knob doubles the monetary fields of a TTF closure entry
and leaves non-TTF entries unchanged. -/
lemma closureEntry_scale (fees : FeesConfig) (k : ℚ) (pos : PosData) (t : Trade) :
    closureEntry { fees := fees, ttfMultiplier := 2 * k } pos t =
      scaleTTFEntry (closureEntry { fees := fees, ttfMultiplier := k } pos t) := by
  by_cases hp : t.product = "TTF"
  · by_cases hd : pos.quantity > 0 <;>
      simp [closureEntry, scaleTTFEntry, hp, hd, getContractMultiplier_TTF] <;>
      repeat' constructor <;>
      all_goals ring
  · simp only [closureEntry, scaleTTFEntry, getContractMultiplier_of_ne t.product (2 * k) k hp]
    simp [hp]

/-- One replay step preserves the doubled-knob history correspondence. -/
lemma step_scale (fees : FeesConfig) (k : ℚ) (s₁ s₂ : EngineState) (t : Trade)
    (hpos : s₁.positions = s₂.positions)
    (hh : s₂.history = s₁.history.map scaleTTFEntry) :
    (step { fees := fees, ttfMultiplier := 2 * k } s₂ t).history =
      ((step { fees := fees, ttfMultiplier := k } s₁ t).history).map scaleTTFEntry := by
  simp only [step, hpos]
  repeat' split
  all_goals simp [hh, closureEntry_scale]

/-- Replay with a doubled TTF knob keeps positions identical and maps the
history entrywise through `scaleTTFEntry`. -/
lemma replay_scale (fees : FeesConfig) (k : ℚ) (trades : List Trade) :
    ∀ s₁ s₂ : EngineState, s₁.positions = s₂.positions →
      s₂.history = s₁.history.map scaleTTFEntry →
      (replay { fees := fees, ttfMultiplier := k } s₁ trades).positions =
        (replay { fees := fees, ttfMultiplier := 2 * k } s₂ trades).positions ∧
      (replay { fees := fees, ttfMultiplier := 2 * k } s₂ trades).history =
        ((replay { fees := fees, ttfMultiplier := k } s₁ trades).history).map
          scaleTTFEntry := by
  induction trades with
  | nil => intro s₁ s₂ hpos hh; exact ⟨hpos, hh⟩
  | cons t rest ih =>
    intro s₁ s₂ hpos hh
    exact ih (step _ s₁ t) (step _ s₂ t)
      (step_positions_congr _ _ s₁ s₂ t hpos)
      (step_scale fees k s₁ s₂ t hpos hh)

/-- C8: the effective TTF multiplier is 10000 times the configured factor
(34,120,000 at the default 3412), and doubling the factor doubles the floating
PnL of a TTF position and scales every realized TTF closure entry by two, all
other inputs fixed. -/
theorem C8_ttf_scaling (fees : FeesConfig) (k : ℚ) (pos : PositionOut) (mtm : ℚ)
    (trades : List Trade) (hp : pos.product = "TTF") :
    getContractMultiplier "TTF" k = 10000 * k ∧
    getContractMultiplier "TTF" 3412 = 34120000 ∧
    calculate_floating_pnl { fees := fees, ttfMultiplier := 2 * k } pos mtm =
      2 * calculate_floating_pnl { fees := fees, ttfMultiplier := k } pos mtm ∧
    (calculate_positions trades { fees := fees, ttfMultiplier := 2 * k }).2 =
      ((calculate_positions trades { fees := fees, ttfMultiplier := k }).2).map
        scaleTTFEntry := by
  refine ⟨getContractMultiplier_TTF k, ?_, ?_, ?_⟩
  · rw [getContractMultiplier_TTF]
    norm_num
  · simp [calculate_floating_pnl, hp, getContractMultiplier_TTF, getFeeRate]
    ring
  · exact (replay_scale fees k _ _ _ rfl (by simp)).2

/-- Witness for C8 on a concrete TTF round trip. -/
theorem C8_ttf_scaling_witness :
    posT.product = "TTF" ∧
    (getContractMultiplier "TTF" (5:ℚ) = 10000 * 5 ∧
     getContractMultiplier "TTF" 3412 = 34120000 ∧
     calculate_floating_pnl { fees := cfgA.fees, ttfMultiplier := 2 * 5 } posT 31 =
       2 * calculate_floating_pnl { fees := cfgA.fees, ttfMultiplier := 5 } posT 31 ∧
     (calculate_positions [tT1, tT2] { fees := cfgA.fees, ttfMultiplier := 2 * 5 }).2 =
       ((calculate_positions [tT1, tT2] { fees := cfgA.fees, ttfMultiplier := 5 }).2).map
         scaleTTFEntry) :=
  ⟨rfl, C8_ttf_scaling cfgA.fees 5 posT 31 [tT1, tT2] rfl⟩

/-- C9: the division guard defines avg_price 0 at zero quantity, unknown
products default to multiplier 1000, missing fee configuration defaults to
rate 0, and a pathological zero-quantity zero-price single-trade ledger
replays to empty outputs. -/
theorem C9_totality_guards (p : String) (k tv : ℚ)
    (hp : p ≠ "Brent" ∧ p ≠ "Henry Hub" ∧ p ≠ "JKM" ∧ p ≠ "TTF") :
    getContractMultiplier p k = 1000 ∧
    getFeeRate p { brentPerBbl := none, hhPerMMBtu := none } = 0 ∧
    posAvgPrice tv 0 = 0 ∧
    calculate_positions [tZ] cfgA = ([], []) := by
  refine ⟨?_, ?_, ?_, ?_⟩
  · simp [getContractMultiplier, CONTRACT_MULTIPLIERS, dictGet,
      hp.1, hp.2.1, hp.2.2.1, hp.2.2.2]
  · simp [getFeeRate]
  · simp [posAvgPrice]
  · simp [calculate_positions, replay, step, sortByDate, insertByDate, tZ, cfgA, tradeKey,
      freshPos, dictGet, dictSet, applyOpen, outputPositions, tol]

/-- Witness for C9 at an unknown product identifier. -/
theorem C9_totality_guards_witness :
    ("Foo" ≠ "Brent" ∧ "Foo" ≠ "Henry Hub" ∧ "Foo" ≠ "JKM" ∧ "Foo" ≠ "TTF") ∧
    (getContractMultiplier "Foo" 7 = 1000 ∧
     getFeeRate "Foo" { brentPerBbl := none, hhPerMMBtu := none } = 0 ∧
     posAvgPrice 3 0 = 0 ∧
     calculate_positions [tZ] cfgA = ([], [])) := by
  have hp : "Foo" ≠ "Brent" ∧ "Foo" ≠ "Henry Hub" ∧ "Foo" ≠ "JKM" ∧ "Foo" ≠ "TTF" := by
    refine ⟨?_, ?_, ?_, ?_⟩ <;> decide
  exact ⟨hp, C9_totality_guards "Foo" 7 3 hp⟩

/-- A successful lookup result is a member of the association list. -/
lemma dictGet_mem {α : Type} {k : String} {v : α} {l : List (String × α)}
    (h : dictGet k l = some v) : (k, v) ∈ l := by
  induction l with
  | nil => simp [dictGet] at h
  | cons kv rest ih =>
    obtain ⟨k₂, v₂⟩ := kv
    by_cases hk : k = k₂
    · simp only [dictGet, if_pos hk] at h
      subst hk
      simp only [Option.some.injEq] at h
      subst h
      exact List.mem_cons_self _ _
    · simp only [dictGet, if_neg hk] at h
      exact List.mem_cons_of_mem _ (ih h)

/-- Members after a keyed update are the new binding or old members. -/
lemma mem_dictSet {α : Type} {K k : String} {pd v : α} {l : List (String × α)}
    (h : (K, pd) ∈ dictSet k v l) : (K = k ∧ pd = v) ∨ (K, pd) ∈ l := by
  induction l with
  | nil => simp [dictSet] at h
  | cons kv rest ih =>
    obtain ⟨k₂, v₂⟩ := kv
    by_cases hk : k = k₂
    · simp only [dictSet, if_pos hk] at h
      rcases List.mem_cons.mp h with heq | hmem
      · left
        obtain ⟨hK₂, hpd⟩ := Prod.ext_iff.mp heq
        exact ⟨hK₂.trans hk.symm, hpd⟩
      · right
        exact List.mem_cons_of_mem _ hmem
    · simp only [dictSet, if_neg hk] at h
      rcases List.mem_cons.mp h with heq | hmem
      · right
        rw [heq]
        exact List.mem_cons_self _ _
      · rcases ih hmem with hl | hr
        · exact Or.inl hl
        · exact Or.inr (List.mem_cons_of_mem _ hr)

/-- A step by a trade that is zero-quantity whenever it touches key K keeps
every K-binding at quantity zero. -/
lemma step_preserves_zero_key (cfg : EngineConfig) (K : String) (s : EngineState) (t : Trade)
    (ht : tradeKey t = K → t.quantity = 0)
    (hs : ∀ pd, (K, pd) ∈ s.positions → pd.quantity = 0) :
    ∀ pd, (K, pd) ∈ (step cfg s t).positions → pd.quantity = 0 := by
  intro pd hmem
  rcases hcase : dictGet (tradeKey t) s.positions with _ | pos
  · rw [step_open_none cfg s t hcase] at hmem
    rcases mem_dictSet hmem with ⟨hK, hpd⟩ | hmem₂
    · have hq0 : t.quantity = 0 := ht hK.symm
      rw [hpd]
      simp [applyOpen, freshPos, hq0]
    · rcases List.mem_append.mp hmem₂ with hl | hr
      · exact hs pd hl
      · simp only [List.mem_singleton, Prod.mk.injEq] at hr
        rw [hr.2]
        rfl
  · have hposmem : (K, pos) ∈ s.positions → pos.quantity = 0 := hs pos
    by_cases hcond : pos.quantity ≠ 0 ∧ pos.quantity * t.quantity < 0
    · by_cases hty : t.type = TradeType.regular
      · rw [step_close cfg s t pos hcase hcond.1 hcond.2 hty] at hmem
        rcases mem_dictSet hmem with ⟨hK, hpd⟩ | hmem₂
        · exfalso
          have hq0 : t.quantity = 0 := ht hK.symm
          rw [hq0, mul_zero] at hcond
          exact lt_irrefl 0 hcond.2
        · exact hs pd hmem₂
      · have hadj : t.type = TradeType.adjustment := by
          cases h : t.type
          · exact absurd h hty
          · rfl
        rw [step_adjust_opposing cfg s t pos hcase hcond.1 hcond.2 hadj] at hmem
        rcases mem_dictSet hmem with ⟨hK, hpd⟩ | hmem₂
        · exfalso
          have hq0 : t.quantity = 0 := ht hK.symm
          rw [hq0, mul_zero] at hcond
          exact lt_irrefl 0 hcond.2
        · exact hs pd hmem₂
    · rw [step_open_some cfg s t pos hcase hcond] at hmem
      rcases mem_dictSet hmem with ⟨hK, hpd⟩ | hmem₂
      · have hq0 : t.quantity = 0 := ht hK.symm
        have hpos0 : pos.quantity = 0 := by
          subst hK
          exact hposmem (dictGet_mem hcase)
        rw [hpd]
        simp [applyOpen, hq0, hpos0]
      · exact hs pd hmem₂

/-- Replaying trades that are zero-quantity on key K keeps every K-binding at
quantity zero. -/
lemma replay_preserves_zero_key (cfg : EngineConfig) (K : String) (trades : List Trade) :
    ∀ s : EngineState,
      (∀ u ∈ trades, tradeKey u = K → u.quantity = 0) →
      (∀ pd, (K, pd) ∈ s.positions → pd.quantity = 0) →
      ∀ pd, (K, pd) ∈ (replay cfg s trades).positions → pd.quantity = 0 := by
  induction trades with
  | nil => intro s _ hs; exact hs
  | cons t rest ih =>
    intro s hall hs
    exact ih (step cfg s t)
      (fun u hu => hall u (List.mem_cons_of_mem _ hu))
      (step_preserves_zero_key cfg K s t (hall t (List.mem_cons_self _ _)) hs)

/-- C10: a zero-quantity trade is classified as opening (never opposing),
appends no history entry, and leaves the looked-up position state unchanged
(creating it at zeroes when absent); a key touched only by zero-quantity
trades never appears in the output positions list. -/
theorem C10_zero_quantity (cfg : EngineConfig) (s : EngineState) (t : Trade) (K : String)
    (trades : List Trade) (h0 : t.quantity = 0)
    (hK : ∀ u ∈ trades, tradeKey u = K → u.quantity = 0) :
    (step cfg s t).history = s.history ∧
    dictGet (tradeKey t) (step cfg s t).positions =
      some ((dictGet (tradeKey t) s.positions).getD (freshPos t)) ∧
    ∀ p ∈ (calculate_positions trades cfg).1, p.key ≠ K := by
  have hno : ∀ pos : PosData, ¬(pos.quantity ≠ 0 ∧ pos.quantity * t.quantity < 0) := by
    intro pos hcond
    rw [h0, mul_zero] at hcond
    exact lt_irrefl 0 hcond.2
  refine ⟨?_, ?_, ?_⟩
  · rcases hcase : dictGet (tradeKey t) s.positions with _ | pos
    · rw [step_open_none cfg s t hcase]
    · rw [step_open_some cfg s t pos hcase (hno pos)]
  · rcases hcase : dictGet (tradeKey t) s.positions with _ | pos
    · rw [step_open_none cfg s t hcase]
      have hget : dictGet (tradeKey t) (s.positions ++ [(tradeKey t, freshPos t)]) =
          some (freshPos t) := by
        rw [dictGet_append_of_none _ _ _ hcase]
        simp [dictGet]
      rw [dictGet_dictSet_self _ _ _ (by rw [hget]; rfl)]
      simp [applyOpen, freshPos, h0]
    · rw [step_open_some cfg s t pos hcase (hno pos)]
      rw [dictGet_dictSet_self _ _ _ (by rw [hcase]; rfl)]
      simp [applyOpen, h0]
  · intro p hp hkey
    have hzero : ∀ pd, (K, pd) ∈
        (replay cfg { positions := [], history := [] }
          (sortByDate (trades.filter (fun u => decide (u.status = TradeStatus.active))))).positions →
        pd.quantity = 0 := by
      refine replay_preserves_zero_key cfg K _ _ (fun u hu => ?_) (by simp)
      rw [mem_sortByDate] at hu
      exact hK u (List.mem_of_mem_filter hu)
    simp only [calculate_positions, outputPositions, List.mem_map, List.mem_filter] at hp
    obtain ⟨kd, ⟨hkdmem, hkdtol⟩, hkdp⟩ := hp
    have hkdK : kd.1 = K := by rw [← hkey, ← hkdp]
    have hq0 : kd.2.quantity = 0 := by
      apply hzero kd.2
      rw [← hkdK]
      exact hkdmem
    rw [hq0] at hkdtol
    norm_num [tol] at hkdtol

/-- Witness for C10 on a single zero-quantity trade ledger. -/
theorem C10_zero_quantity_witness :
    (tZ.quantity = 0 ∧ ∀ u ∈ [tZ], tradeKey u = "W-Brent-2602" → u.quantity = 0) ∧
    ((step cfgA { positions := [], history := [] } tZ).history =
      ({ positions := [], history := [] } : EngineState).history ∧
    dictGet (tradeKey tZ) (step cfgA { positions := [], history := [] } tZ).positions =
      some ((dictGet (tradeKey tZ)
        ({ positions := [], history := [] } : EngineState).positions).getD (freshPos tZ)) ∧
    ∀ p ∈ (calculate_positions [tZ] cfgA).1, p.key ≠ "W-Brent-2602") := by
  have h0 : tZ.quantity = 0 := rfl
  have hK : ∀ u ∈ [tZ], tradeKey u = "W-Brent-2602" → u.quantity = 0 := by
    intro u hu _
    rw [List.mem_singleton] at hu
    rw [hu]
    exact h0
  exact ⟨⟨h0, hK⟩,
    C10_zero_quantity cfgA { positions := [], history := [] } tZ "W-Brent-2602" [tZ] h0 hK⟩

end TradingBRT
